import Mathlib

/-!
Verification development for the bl702-hal repository (src/delay.rs and
src/spi.rs), as a shallow embedding in Lean 4.

Hardware interaction is modelled by explicit traces:
  * the free-running 64-bit `mcycle` counter is a list of successive
    values returned by `riscv::register::mcycle::read64()`;
  * the SPI peripheral's FIFO status registers are a list of successive
    snapshots returned by polling reads.
A busy-wait loop consumes its trace; an exhausted trace models a spin
that never terminates, rendered as `Option.none` (fuel style).
-/

namespace BL702

/-- The 64-bit modulus used by `u64` arithmetic on the cycle counter. -/
def U64 : ℕ := 2 ^ 64

/-- The 32-bit modulus used by `u32` inputs (`as u64` casts preserve value). -/
def U32 : ℕ := 2 ^ 32

/-! ## delay.rs : McycleDelay -/

/-- Model of `u64::wrapping_sub`: `a - b` computed modulo `2^64`
(both arguments reduced modulo `2^64` first, as `u64` values are). -/
def wsub64 (a b : ℕ) : ℕ :=
  (a % U64 + (U64 - b % U64)) % U64

/-- Model of `McycleDelay::cycles_since(previous_cycle_count)` from src/delay.rs:
`read64().wrapping_sub(previous_cycle_count)`, where `current` is the value
the counter read returns. -/
def cycles_since (current previous_cycle_count : ℕ) : ℕ :=
  wsub64 current previous_cycle_count

/-- The spin of `McycleDelay::delay_cycles` from src/delay.rs:
`while cycles_since(start) <= cycle_count {}` — each loop-condition check
performs one counter read, consumed from the trace.  Returns the elapsed
count observed at exit together with the unconsumed tail of the trace. -/
def spinUntilElapsed (start cycle_count : ℕ) : List ℕ → Option (ℕ × List ℕ)
  | [] => none
  | c :: rest =>
    if cycles_since c start ≤ cycle_count then
      spinUntilElapsed start cycle_count rest
    else
      some (cycles_since c start, rest)

/-- Model of `McycleDelay::delay_cycles(cycle_count)` from src/delay.rs:
captures `start = get_cycle_count()` (the first read of the trace), then
spins until `cycles_since(start) > cycle_count`. -/
def delay_cycles (cycle_count : ℕ) : List ℕ → Option (ℕ × List ℕ)
  | [] => none
  | start :: rest => spinUntilElapsed start cycle_count rest

/-- The cycle count computed by `delay_ns` in src/delay.rs:
`((ns as u64) * (core_frequency as u64)) / 1_000_000_0000u64`.
Note the divisor in the source is `1_000_000_0000` = 10^10.
The `u64` product of two `u32` values cannot wrap. -/
def delay_ns_cycles (ns core_frequency : ℕ) : ℕ :=
  ((ns % U32) * (core_frequency % U32)) / 10000000000

/-- The cycle count computed by `delay_us` in src/delay.rs:
`((us as u64) * (core_frequency as u64)) / 1_000_000u64`. -/
def delay_us_cycles (us core_frequency : ℕ) : ℕ :=
  ((us % U32) * (core_frequency % U32)) / 1000000

/-- The cycle count computed by `delay_ms` in src/delay.rs:
`((ms as u64) * (core_frequency as u64)) / 1000u64`. -/
def delay_ms_cycles (ms core_frequency : ℕ) : ℕ :=
  ((ms % U32) * (core_frequency % U32)) / 1000

/-- Model of `DelayNs::delay_ns` for `McycleDelay`: convert then `delay_cycles`. -/
def delay_ns_run (ns core_frequency : ℕ) (mt : List ℕ) : Option (ℕ × List ℕ) :=
  delay_cycles (delay_ns_cycles ns core_frequency) mt

/-- Model of `DelayNs::delay_us` for `McycleDelay`: convert then `delay_cycles`. -/
def delay_us_run (us core_frequency : ℕ) (mt : List ℕ) : Option (ℕ × List ℕ) :=
  delay_cycles (delay_us_cycles us core_frequency) mt

/-- Model of `DelayNs::delay_ms` for `McycleDelay`: convert then `delay_cycles`. -/
def delay_ms_run (ms core_frequency : ℕ) (mt : List ℕ) : Option (ℕ × List ℕ) :=
  delay_cycles (delay_ms_cycles ms core_frequency) mt

/-! ## spi.rs : construction (`Spi::new`) -/

/-- Model of `embedded_hal::spi::Polarity`. -/
inductive Polarity
  | IdleLow
  | IdleHigh
deriving DecidableEq

/-- Model of `embedded_hal::spi::Phase`. -/
inductive Phase
  | CaptureOnFirstTransition
  | CaptureOnSecondTransition
deriving DecidableEq

/-- Model of `embedded_hal::spi::Mode`: a (polarity, phase) pair. -/
structure Mode where
  polarity : Polarity
  phase : Phase
deriving DecidableEq

/-- The period-register fields written by `Spi::new` (registers `spi_prd_0`
and `spi_prd_1`). -/
structure PeriodRegs where
  cr_spi_prd_s : ℕ
  cr_spi_prd_p : ℕ
  cr_spi_prd_d_ph_0 : ℕ
  cr_spi_prd_d_ph_1 : ℕ
  cr_spi_prd_i : ℕ
deriving DecidableEq

/-- The `spi_config` register fields written by `Spi::new`. -/
structure ConfigReg where
  cr_spi_sclk_pol : Bool
  cr_spi_sclk_ph : Bool
  cr_spi_m_cont_en : Bool
  cr_spi_frame_size : ℕ
  cr_spi_s_en : Bool
  cr_spi_m_en : Bool
deriving DecidableEq

/-- The observable outcome of `Spi::new`: the programmed registers and the
core frequency handed to the embedded `McycleDelay`. -/
structure SpiRegs where
  prd : PeriodRegs
  config : ConfigReg
  core_frequency : ℕ
deriving DecidableEq

/-- Model of `Spi::new` from src/spi.rs: computes
`len = clocks.spi_clk() / freq / 2`, panics (modelled as `none`) when
`len > 256 || len == 0`, and otherwise programs `(len - 1) as u8` into the
five period fields, sets polarity/phase from `mode`, disables continuous
mode, selects 8-bit frames, clears target mode, sets controller mode, and
embeds a `McycleDelay` built from `clocks.sysclk()`. -/
def Spi_new_regs (sysclk : ℕ) (mode : Mode) (lenB : ℕ) : SpiRegs :=
  { prd :=
      { cr_spi_prd_s := lenB
        cr_spi_prd_p := lenB
        cr_spi_prd_d_ph_0 := lenB
        cr_spi_prd_d_ph_1 := lenB
        cr_spi_prd_i := lenB }
    config :=
      { cr_spi_sclk_pol :=
          match mode.polarity with
          | .IdleLow => false
          | .IdleHigh => true
        cr_spi_sclk_ph :=
          match mode.phase with
          | .CaptureOnFirstTransition => true
          | .CaptureOnSecondTransition => false
        cr_spi_m_cont_en := false
        cr_spi_frame_size := 0
        cr_spi_s_en := false
        cr_spi_m_en := true }
    core_frequency := sysclk }

/-- Body of `Spi::new` proper: range check on `len`, then register writes. -/
def Spi_new (spi_clk sysclk : ℕ) (mode : Mode) (freq : ℕ) : Option SpiRegs :=
  let len := spi_clk / freq / 2
  if 256 < len ∨ len = 0 then
    none
  else
    some (Spi_new_regs sysclk mode ((len - 1) % 256))

/-! ## spi.rs : FIFO polling and the byte-step primitives

The peripheral is modelled by a trace of FIFO-status snapshots, one
consumed per polling read of `spi_fifo_config_0` / `spi_fifo_config_1` /
`spi_fifo_rdata`, together with a log of the values written to the
transmit data port `spi_fifo_wdata`. -/

/-- The SPI error enumeration from src/spi.rs. -/
inductive Error
  | RxOverflow
  | RxUnderflow
  | TxOverflow
  | TxUnderflow
deriving DecidableEq

/-- Model of `nb::Result`: success, the retryable `WouldBlock`, or a terminal error. -/
inductive NbResult (α : Type)
  | ok (x : α)
  | wouldBlock
  | err (e : Error)
deriving DecidableEq

/-- One snapshot of the FIFO-related read-only register fields sampled by a
single poll: the flag and occupancy fields of `spi_fifo_config_0` /
`spi_fifo_config_1` and the 32-bit receive data register `spi_fifo_rdata`. -/
structure FifoStatus where
  tx_fifo_overflow : Bool
  tx_fifo_underflow : Bool
  tx_fifo_cnt : ℕ
  rx_fifo_overflow : Bool
  rx_fifo_underflow : Bool
  rx_fifo_cnt : ℕ
  spi_fifo_rdata : ℕ
deriving DecidableEq

/-- Model of `FullDuplex::read` for `Spi` from src/spi.rs, classifying one poll:
overflow flag, then underflow flag, then empty occupancy, else a data-port
read masked to the low 8 bits. -/
def FullDuplex_read (s : FifoStatus) : NbResult ℕ :=
  if s.rx_fifo_overflow then .err .RxOverflow
  else if s.rx_fifo_underflow then .err .RxUnderflow
  else if s.rx_fifo_cnt = 0 then .wouldBlock
  else .ok (s.spi_fifo_rdata % 256)

/-- Model of `FullDuplex::write` for `Spi` from src/spi.rs, classifying one poll:
overflow flag, then underflow flag, then no-space occupancy, else success;
on success the value pushed to `spi_fifo_wdata` is `data as u32`, returned
here so the polling wrapper can record it. -/
def FullDuplex_write (s : FifoStatus) (data : ℕ) : NbResult ℕ :=
  if s.tx_fifo_overflow then .err .TxOverflow
  else if s.tx_fifo_underflow then .err .TxUnderflow
  else if s.tx_fifo_cnt = 0 then .wouldBlock
  else .ok (data % U32)

/-- The peripheral as seen by the driver: the pending poll snapshots and the
log of bytes pushed to the transmit FIFO so far. -/
structure SpiState where
  trace : List FifoStatus
  written : List ℕ
deriving DecidableEq

/-- Poll loop of `nb::block!(FullDuplex::write(self, data))` over the trace. -/
def blockWriteLoop (data : ℕ) (log : List ℕ) :
    List FifoStatus → Option (Except Error Unit × SpiState)
  | [] => none
  | s :: rest =>
    match FullDuplex_write s data with
    | .wouldBlock => blockWriteLoop data log rest
    | .err e => some (.error e, ⟨rest, log⟩)
    | .ok w => some (.ok (), ⟨rest, log ++ [w]⟩)

/-- Model of `nb::block!(FullDuplex::write(self, data))`: re-poll while `WouldBlock`;
a terminal flag aborts with that error; success records the pushed value.
An exhausted trace models a spin that never terminates. -/
def blockWrite (st : SpiState) (data : ℕ) : Option (Except Error Unit × SpiState) :=
  blockWriteLoop data st.written st.trace

/-- Poll loop of `nb::block!(FullDuplex::read(self))` over the trace. -/
def blockReadLoop (log : List ℕ) :
    List FifoStatus → Option (Except Error ℕ × SpiState)
  | [] => none
  | s :: rest =>
    match FullDuplex_read s with
    | .wouldBlock => blockReadLoop log rest
    | .err e => some (.error e, ⟨rest, log⟩)
    | .ok b => some (.ok b, ⟨rest, log⟩)

/-- Model of `nb::block!(FullDuplex::read(self))`: re-poll while `WouldBlock`;
a terminal flag aborts with that error; success yields the masked byte. -/
def blockRead (st : SpiState) : Option (Except Error ℕ × SpiState) :=
  blockReadLoop st.written st.trace

/-- Model of `SpiBus::read` from src/spi.rs: per destination byte, push a `0x00`
filler then capture the received byte into the slot.  The returned list is
the final content of the destination buffer (error leaves the current and
all later slots unchanged). -/
def spiRead : SpiState → List ℕ → Option (Except Error Unit × List ℕ × SpiState)
  | st, [] => some (.ok (), [], st)
  | st, word :: ws =>
    match blockWrite st 0 with
    | none => none
    | some (.error e, st1) => some (.error e, word :: ws, st1)
    | some (.ok _, st1) =>
      match blockRead st1 with
      | none => none
      | some (.error e, st2) => some (.error e, word :: ws, st2)
      | some (.ok b, st2) =>
        match spiRead st2 ws with
        | none => none
        | some (r, ws2, st3) => some (r, b :: ws2, st3)

/-- Model of `SpiBus::write` from src/spi.rs: per source byte, push it then pop and
discard the received byte (draining the receive FIFO). -/
def spiWrite : SpiState → List ℕ → Option (Except Error Unit × SpiState)
  | st, [] => some (.ok (), st)
  | st, word :: ws =>
    match blockWrite st word with
    | none => none
    | some (.error e, st1) => some (.error e, st1)
    | some (.ok _, st1) =>
      match blockRead st1 with
      | none => none
      | some (.error e, st2) => some (.error e, st2)
      | some (.ok _, st2) => spiWrite st2 ws

/-- Model of `SpiBus::transfer_in_place` from src/spi.rs: per byte, push the current
slot value then overwrite the slot with the captured byte. -/
def spiTransferInPlace :
    SpiState → List ℕ → Option (Except Error Unit × List ℕ × SpiState)
  | st, [] => some (.ok (), [], st)
  | st, word :: ws =>
    match blockWrite st word with
    | none => none
    | some (.error e, st1) => some (.error e, word :: ws, st1)
    | some (.ok _, st1) =>
      match blockRead st1 with
      | none => none
      | some (.error e, st2) => some (.error e, word :: ws, st2)
      | some (.ok b, st2) =>
        match spiTransferInPlace st2 ws with
        | none => none
        | some (r, ws2, st3) => some (r, b :: ws2, st3)

/-- The paired loop shared by all three branches of `SpiBus::transfer`:
for each index of the overlapping prefix, push `write[idx]` and capture
into `read[idx]`. -/
def pairedLoop :
    SpiState → List ℕ → List ℕ → Option (Except Error Unit × List ℕ × SpiState)
  | st, rds, [] => some (.ok (), rds, st)
  | st, [], _ :: _ => some (.ok (), [], st)
  | st, r :: rds, w :: ws =>
    match blockWrite st w with
    | none => none
    | some (.error e, st1) => some (.error e, r :: rds, st1)
    | some (.ok _, st1) =>
      match blockRead st1 with
      | none => none
      | some (.error e, st2) => some (.error e, r :: rds, st2)
      | some (.ok b, st2) =>
        match pairedLoop st2 rds ws with
        | none => none
        | some (res, rds2, st3) => some (res, b :: rds2, st3)

/-- The write-only suffix loop of `SpiBus::transfer` (read buffer shorter):
push each remaining source byte, never popping. -/
def writeOnlyLoop : SpiState → List ℕ → Option (Except Error Unit × SpiState)
  | st, [] => some (.ok (), st)
  | st, w :: ws =>
    match blockWrite st w with
    | none => none
    | some (.error e, st1) => some (.error e, st1)
    | some (.ok _, st1) => writeOnlyLoop st1 ws

/-- The capture-only suffix loop of `SpiBus::transfer` (write buffer
shorter), exactly as the source has it: `read[idx] = block!(read())` for the
remaining indices, with no push of any filler byte beforehand. -/
def captureLoop :
    SpiState → List ℕ → Option (Except Error Unit × List ℕ × SpiState)
  | st, [] => some (.ok (), [], st)
  | st, word :: ws =>
    match blockRead st with
    | none => none
    | some (.error e, st1) => some (.error e, word :: ws, st1)
    | some (.ok b, st1) =>
      match captureLoop st1 ws with
      | none => none
      | some (res, ws2, st2) => some (res, b :: ws2, st2)

/-- Model of `SpiBus::transfer` from src/spi.rs, with its three length branches. -/
def spiTransfer (st : SpiState) (rd wr : List ℕ) :
    Option (Except Error Unit × List ℕ × SpiState) :=
  if rd.length = wr.length then
    pairedLoop st rd wr
  else if rd.length < wr.length then
    match pairedLoop st rd (wr.take rd.length) with
    | none => none
    | some (.error e, rd2, st1) => some (.error e, rd2, st1)
    | some (.ok _, rd2, st1) =>
      match writeOnlyLoop st1 (wr.drop rd.length) with
      | none => none
      | some (res, st2) => some (res, rd2, st2)
  else
    match pairedLoop st (rd.take wr.length) wr with
    | none => none
    | some (.error e, pref, st1) =>
      some (.error e, pref ++ rd.drop wr.length, st1)
    | some (.ok _, pref, st1) =>
      match captureLoop st1 (rd.drop wr.length) with
      | none => none
      | some (res, suf, st2) => some (res, pref ++ suf, st2)

/-! ## spi.rs : SpiDevice::transaction -/

/-- Model of `embedded_hal::spi::Operation`, carrying its buffer contents. -/
inductive Operation
  | read (buf : List ℕ)
  | write (buf : List ℕ)
  | transfer (rd wr : List ℕ)
  | transferInPlace (buf : List ℕ)
  | delayNs (ns : ℕ)
deriving DecidableEq

/-- One arm of the `match` inside `SpiDevice::transaction` from src/spi.rs:
dispatch a single operation to the corresponding `SpiBus` primitive, or
forward `DelayNs` to the embedded `McycleDelay::delay_ns` (running on the
mcycle trace `mt` with the stored core frequency).  The operation is
returned with its final buffer contents. -/
def runOp (st : SpiState) (mt : List ℕ) (core_frequency : ℕ) :
    Operation → Option (Except Error Unit × Operation × SpiState × List ℕ)
  | .read buf =>
    match spiRead st buf with
    | none => none
    | some (r, buf2, st2) => some (r, .read buf2, st2, mt)
  | .write buf =>
    match spiWrite st buf with
    | none => none
    | some (r, st2) => some (r, .write buf, st2, mt)
  | .transfer rd wr =>
    match spiTransfer st rd wr with
    | none => none
    | some (r, rd2, st2) => some (r, .transfer rd2 wr, st2, mt)
  | .transferInPlace buf =>
    match spiTransferInPlace st buf with
    | none => none
    | some (r, buf2, st2) => some (r, .transferInPlace buf2, st2, mt)
  | .delayNs ns =>
    match delay_ns_run ns core_frequency mt with
    | none => none
    | some (_, mt2) => some (.ok (), .delayNs ns, st, mt2)

/-- Model of `SpiDevice::transaction` from src/spi.rs: execute the operations in
list order; the `?` operator returns the first error at once, leaving the
remaining operations unexecuted (their buffers untouched). -/
def transaction (core_frequency : ℕ) :
    SpiState → List ℕ → List Operation →
      Option (Except Error Unit × List Operation × SpiState × List ℕ)
  | st, mt, [] => some (.ok (), [], st, mt)
  | st, mt, op :: ops =>
    match runOp st mt core_frequency op with
    | none => none
    | some (.error e, op2, st2, mt2) => some (.error e, op2 :: ops, st2, mt2)
    | some (.ok _, op2, st2, mt2) =>
      match transaction core_frequency st2 mt2 ops with
      | none => none
      | some (r, ops2, st3, mt3) => some (r, op2 :: ops2, st3, mt3)

/-! ### Supporting lemmas for the delay loop -/

/-- Any exit of the spin loop observed an elapsed count strictly above the
requested one. -/
lemma spinUntilElapsed_gt (start cycle_count : ℕ) :
    ∀ (mt : List ℕ) (e : ℕ) (rest : List ℕ),
      spinUntilElapsed start cycle_count mt = some (e, rest) → cycle_count < e := by
  intro mt
  induction mt with
  | nil => intro e rest h; simp [spinUntilElapsed] at h
  | cons c tl ih =>
    intro e rest h
    by_cases hc : cycles_since c start ≤ cycle_count
    · rw [spinUntilElapsed, if_pos hc] at h
      exact ih e rest h
    · rw [spinUntilElapsed, if_neg hc] at h
      simp only [Option.some.injEq, Prod.mk.injEq] at h
      omega

/-- Division first by `f` and then by 2 equals division by `2 * f`. -/
lemma div_div_two_eq (F f : ℕ) : F / f / 2 = F / (2 * f) := by
  rw [Nat.div_div_eq_div_mul, Nat.mul_comm]

/-- Claim C3: whenever `floor(F / (2 f))` lies in `[1, 256]`, construction
succeeds and one identical 8-bit value `floor(F / (2 f)) - 1` is programmed
into both half-period fields and the inter-frame idle-period field. -/
theorem Spi_new_divider (F sysclk : ℕ) (mode : Mode) (f : ℕ)
    (h1 : 1 ≤ F / (2 * f)) (h2 : F / (2 * f) ≤ 256) :
    ∃ regs : SpiRegs, Spi_new F sysclk mode f = some regs ∧
      regs.prd.cr_spi_prd_d_ph_0 = F / (2 * f) - 1 ∧
      regs.prd.cr_spi_prd_d_ph_1 = F / (2 * f) - 1 ∧
      regs.prd.cr_spi_prd_i = F / (2 * f) - 1 ∧
      regs.prd.cr_spi_prd_d_ph_0 < 256 := by
  have hmask : (F / (2 * f) - 1) % 256 = F / (2 * f) - 1 :=
    Nat.mod_eq_of_lt (by omega)
  refine ⟨Spi_new_regs sysclk mode ((F / (2 * f) - 1) % 256), ?_, ?_, ?_, ?_, ?_⟩
  · simp only [Spi_new, div_div_two_eq]
    rw [if_neg (by omega)]
  all_goals simp only [Spi_new_regs, hmask]
  omega

/-- Witness for C3: `F = 100`, `f = 10` gives divider length 5, so the
period value 4 is programmed into all three fields. -/
theorem Spi_new_divider_witness :
    ∃ regs : SpiRegs,
      Spi_new 100 32000000 ⟨Polarity.IdleLow, Phase.CaptureOnFirstTransition⟩ 10
          = some regs ∧
      regs.prd.cr_spi_prd_d_ph_0 = 100 / (2 * 10) - 1 ∧
      regs.prd.cr_spi_prd_d_ph_1 = 100 / (2 * 10) - 1 ∧
      regs.prd.cr_spi_prd_i = 100 / (2 * 10) - 1 ∧
      regs.prd.cr_spi_prd_d_ph_0 < 256 :=
  Spi_new_divider 100 32000000 ⟨Polarity.IdleLow, Phase.CaptureOnFirstTransition⟩ 10
    (by norm_num) (by norm_num)

/-- Claim C4: whenever `floor(F / (2 f))` is 0 or exceeds 256, `Spi::new`
fails (the panic, modelled as `none`): no clamped, wrapped, or otherwise
constructed engine is returned. -/
theorem Spi_new_out_of_range (F sysclk : ℕ) (mode : Mode) (f : ℕ)
    (h : F / (2 * f) = 0 ∨ 256 < F / (2 * f)) :
    Spi_new F sysclk mode f = none := by
  rw [Spi_new]
  simp only [div_div_two_eq]
  rw [if_pos (by omega)]

/-- Witness for C4: a divider length of 5000 (`F = 10000`, `f = 1`) and one
of 0 (`F = 1`, `f = 1`) both make construction fail. -/
theorem Spi_new_out_of_range_witness :
    Spi_new 10000 32000000 ⟨Polarity.IdleLow, Phase.CaptureOnFirstTransition⟩ 1
        = none ∧
    Spi_new 1 32000000 ⟨Polarity.IdleHigh, Phase.CaptureOnSecondTransition⟩ 1
        = none :=
  ⟨Spi_new_out_of_range 10000 32000000 _ 1 (by norm_num),
   Spi_new_out_of_range 1 32000000 _ 1 (by norm_num)⟩

/-- An erroring `spiWrite` run errs on the byte-step at some index `N` of
the source buffer: the first `N` steps alone succeed, and the `N + 1`-st
step returns the very error and state of the whole run. -/
lemma spiWrite_error_stepwise (ws : List ℕ) :
    ∀ (st : SpiState) (e : Error) (st2 : SpiState),
      spiWrite st ws = some (.error e, st2) →
      ∃ N, N < ws.length ∧
        (∃ stm, spiWrite st (ws.take N) = some (.ok (), stm)) ∧
        spiWrite st (ws.take (N + 1)) = some (.error e, st2) := by
  induction ws with
  | nil => intro st e st2 h; simp [spiWrite] at h
  | cons w ws ih =>
    intro st e st2 h
    rw [spiWrite] at h
    rcases hbw : blockWrite st w with _ | ⟨e1 | u1, st1⟩ <;> rw [hbw] at h
    · simp at h
    · simp only [Option.some.injEq, Prod.mk.injEq, Except.error.injEq] at h
      obtain ⟨rfl, rfl⟩ := h
      exact ⟨0, by simp, ⟨st, by simp [spiWrite]⟩, by simp [spiWrite, hbw]⟩
    · dsimp only at h
      rcases hbr : blockRead st1 with _ | ⟨e2 | b, st3⟩ <;> rw [hbr] at h <;>
        dsimp only at h
      · exact absurd h (by simp)
      · simp only [Option.some.injEq, Prod.mk.injEq, Except.error.injEq] at h
        obtain ⟨rfl, rfl⟩ := h
        exact ⟨0, by simp, ⟨st, by simp [spiWrite]⟩, by simp [spiWrite, hbw, hbr]⟩
      · obtain ⟨N, hN, ⟨stm, hok⟩, herr⟩ := ih st3 e st2 h
        refine ⟨N + 1, by simpa using hN, ⟨stm, ?_⟩, ?_⟩
        · simpa [spiWrite, hbw, hbr] using hok
        · simpa [spiWrite, hbw, hbr] using herr

/-- An erroring `spiRead` run errs on the byte-step at some index `N`: the
first `N` steps alone succeed and produce exactly the first `N` entries of
the final buffer, entries from `N` on are the original ones, and the
`N + 1`-st step returns the very error and state of the whole run. -/
lemma spiRead_error_stepwise (ws : List ℕ) :
    ∀ (st : SpiState) (e : Error) (out : List ℕ) (st2 : SpiState),
      spiRead st ws = some (.error e, out, st2) →
      ∃ N, N < ws.length ∧ out.length = ws.length ∧
        out.drop N = ws.drop N ∧
        (∃ stm, spiRead st (ws.take N) = some (.ok (), out.take N, stm)) ∧
        spiRead st (ws.take (N + 1)) = some (.error e, out.take (N + 1), st2) := by
  induction ws with
  | nil => intro st e out st2 h; simp [spiRead] at h
  | cons w ws ih =>
    intro st e out st2 h
    rw [spiRead] at h
    rcases hbw : blockWrite st 0 with _ | ⟨e1 | u1, st1⟩ <;> rw [hbw] at h
    · simp at h
    · simp only [Option.some.injEq, Prod.mk.injEq, Except.error.injEq] at h
      obtain ⟨rfl, h2, rfl⟩ := h
      subst h2
      exact ⟨0, by simp, rfl, rfl, ⟨st, by simp [spiRead]⟩, by simp [spiRead, hbw]⟩
    · dsimp only at h
      rcases hbr : blockRead st1 with _ | ⟨e2 | b, st3⟩ <;> rw [hbr] at h <;>
        dsimp only at h
      · exact absurd h (by simp)
      · simp only [Option.some.injEq, Prod.mk.injEq, Except.error.injEq] at h
        obtain ⟨rfl, h2, rfl⟩ := h
        subst h2
        exact ⟨0, by simp, rfl, rfl, ⟨st, by simp [spiRead]⟩,
          by simp [spiRead, hbw, hbr]⟩
      · rcases hrec : spiRead st3 ws with _ | ⟨r3, ws2, st4⟩ <;> rw [hrec] at h <;>
          dsimp only at h
        · exact absurd h (by simp)
        · simp only [Option.some.injEq, Prod.mk.injEq] at h
          obtain ⟨hr, h2, rfl⟩ := h
          subst h2
          subst hr
          obtain ⟨N, hN, hlen, hdrop, ⟨stm, hok⟩, herr⟩ := ih st3 e ws2 st4 hrec
          refine ⟨N + 1, by simpa using hN, by simp [hlen], by simpa using hdrop,
            ⟨stm, ?_⟩, ?_⟩
          · simp [spiRead, hbw, hbr, hok]
          · simp [spiRead, hbw, hbr, herr]

/-- An erroring `spiTransferInPlace` run errs on the byte-step at some index
`N`, with the same partial-buffer shape as `spiRead`. -/
lemma spiTransferInPlace_error_stepwise (ws : List ℕ) :
    ∀ (st : SpiState) (e : Error) (out : List ℕ) (st2 : SpiState),
      spiTransferInPlace st ws = some (.error e, out, st2) →
      ∃ N, N < ws.length ∧ out.length = ws.length ∧
        out.drop N = ws.drop N ∧
        (∃ stm, spiTransferInPlace st (ws.take N) = some (.ok (), out.take N, stm)) ∧
        spiTransferInPlace st (ws.take (N + 1))
            = some (.error e, out.take (N + 1), st2) := by
  induction ws with
  | nil => intro st e out st2 h; simp [spiTransferInPlace] at h
  | cons w ws ih =>
    intro st e out st2 h
    rw [spiTransferInPlace] at h
    rcases hbw : blockWrite st w with _ | ⟨e1 | u1, st1⟩ <;> rw [hbw] at h
    · simp at h
    · simp only [Option.some.injEq, Prod.mk.injEq, Except.error.injEq] at h
      obtain ⟨rfl, h2, rfl⟩ := h
      subst h2
      exact ⟨0, by simp, rfl, rfl, ⟨st, by simp [spiTransferInPlace]⟩,
        by simp [spiTransferInPlace, hbw]⟩
    · dsimp only at h
      rcases hbr : blockRead st1 with _ | ⟨e2 | b, st3⟩ <;> rw [hbr] at h <;>
        dsimp only at h
      · exact absurd h (by simp)
      · simp only [Option.some.injEq, Prod.mk.injEq, Except.error.injEq] at h
        obtain ⟨rfl, h2, rfl⟩ := h
        subst h2
        exact ⟨0, by simp, rfl, rfl, ⟨st, by simp [spiTransferInPlace]⟩,
          by simp [spiTransferInPlace, hbw, hbr]⟩
      · rcases hrec : spiTransferInPlace st3 ws with _ | ⟨r3, ws2, st4⟩ <;>
          rw [hrec] at h <;> dsimp only at h
        · exact absurd h (by simp)
        · simp only [Option.some.injEq, Prod.mk.injEq] at h
          obtain ⟨hr, h2, rfl⟩ := h
          subst h2
          subst hr
          obtain ⟨N, hN, hlen, hdrop, ⟨stm, hok⟩, herr⟩ := ih st3 e ws2 st4 hrec
          refine ⟨N + 1, by simpa using hN, by simp [hlen], by simpa using hdrop,
            ⟨stm, ?_⟩, ?_⟩
          · simp [spiTransferInPlace, hbw, hbr, hok]
          · simp [spiTransferInPlace, hbw, hbr, herr]

/-- Every `pairedLoop` outcome's buffer has the length of the read prefix it
was given. -/
lemma pairedLoop_length (rds : List ℕ) :
    ∀ (ws : List ℕ) (st : SpiState) (r : Except Error Unit) (out : List ℕ)
      (st2 : SpiState),
      pairedLoop st rds ws = some (r, out, st2) → out.length = rds.length := by
  induction rds with
  | nil =>
    intro ws st r out st2 h
    cases ws with
    | nil =>
      simp only [pairedLoop, Option.some.injEq, Prod.mk.injEq] at h
      obtain ⟨-, h2, -⟩ := h
      subst h2
      rfl
    | cons a as =>
      simp only [pairedLoop, Option.some.injEq, Prod.mk.injEq] at h
      obtain ⟨-, h2, -⟩ := h
      subst h2
      rfl
  | cons rr rds ih =>
    intro ws st r out st2 h
    cases ws with
    | nil =>
      simp only [pairedLoop, Option.some.injEq, Prod.mk.injEq] at h
      obtain ⟨-, h2, -⟩ := h
      subst h2
      rfl
    | cons w ws =>
      rw [pairedLoop] at h
      rcases hbw : blockWrite st w with _ | ⟨e1 | u1, st1⟩ <;> rw [hbw] at h
      · simp at h
      · simp only [Option.some.injEq, Prod.mk.injEq] at h
        obtain ⟨-, h2, -⟩ := h
        subst h2
        rfl
      · dsimp only at h
        rcases hbr : blockRead st1 with _ | ⟨e2 | b, st3⟩ <;> rw [hbr] at h <;>
          dsimp only at h
        · exact absurd h (by simp)
        · simp only [Option.some.injEq, Prod.mk.injEq] at h
          obtain ⟨-, h2, -⟩ := h
          subst h2
          rfl
        · rcases hrec : pairedLoop st3 rds ws with _ | ⟨r3, rds2, st4⟩ <;>
            rw [hrec] at h <;> dsimp only at h
          · exact absurd h (by simp)
          · simp only [Option.some.injEq, Prod.mk.injEq] at h
            obtain ⟨-, h2, -⟩ := h
            subst h2
            simpa using ih ws st3 r3 rds2 st4 hrec

/-- An erroring `pairedLoop` run errs on the paired byte-step at some index
`N`: the first `N` steps alone (both buffers truncated) succeed with exactly
the first `N` entries of the final buffer, the entries from `N` on are the
original ones, and the `N + 1`-st step returns the very error and state of
the whole run. -/
lemma pairedLoop_error_stepwise (rds : List ℕ) :
    ∀ (ws : List ℕ) (st : SpiState) (e : Error) (out : List ℕ) (st2 : SpiState),
      pairedLoop st rds ws = some (.error e, out, st2) →
      ∃ N, N < rds.length ∧ N < ws.length ∧ out.length = rds.length ∧
        out.drop N = rds.drop N ∧
        (∃ stm, pairedLoop st (rds.take N) (ws.take N)
            = some (.ok (), out.take N, stm)) ∧
        pairedLoop st (rds.take (N + 1)) (ws.take (N + 1))
            = some (.error e, out.take (N + 1), st2) := by
  induction rds with
  | nil =>
    intro ws st e out st2 h
    cases ws <;> simp [pairedLoop] at h
  | cons rr rds ih =>
    intro ws st e out st2 h
    cases ws with
    | nil => simp [pairedLoop] at h
    | cons w ws =>
      rw [pairedLoop] at h
      rcases hbw : blockWrite st w with _ | ⟨e1 | u1, st1⟩ <;> rw [hbw] at h
      · simp at h
      · simp only [Option.some.injEq, Prod.mk.injEq, Except.error.injEq] at h
        obtain ⟨rfl, h2, rfl⟩ := h
        subst h2
        exact ⟨0, by simp, by simp, rfl, rfl, ⟨st, by simp [pairedLoop]⟩,
          by simp [pairedLoop, hbw]⟩
      · dsimp only at h
        rcases hbr : blockRead st1 with _ | ⟨e2 | b, st3⟩ <;> rw [hbr] at h <;>
          dsimp only at h
        · exact absurd h (by simp)
        · simp only [Option.some.injEq, Prod.mk.injEq, Except.error.injEq] at h
          obtain ⟨rfl, h2, rfl⟩ := h
          subst h2
          exact ⟨0, by simp, by simp, rfl, rfl, ⟨st, by simp [pairedLoop]⟩,
            by simp [pairedLoop, hbw, hbr]⟩
        · rcases hrec : pairedLoop st3 rds ws with _ | ⟨r3, rds2, st4⟩ <;>
            rw [hrec] at h <;> dsimp only at h
          · exact absurd h (by simp)
          · simp only [Option.some.injEq, Prod.mk.injEq] at h
            obtain ⟨hr, h2, rfl⟩ := h
            subst h2
            subst hr
            obtain ⟨N, hN1, hN2, hlen, hdrop, ⟨stm, hok⟩, herr⟩ :=
              ih ws st3 e rds2 st4 hrec
            refine ⟨N + 1, by simpa using hN1, by simpa using hN2,
              by simp [hlen], by simpa using hdrop, ⟨stm, ?_⟩, ?_⟩
            · simp [pairedLoop, hbw, hbr, hok]
            · simp [pairedLoop, hbw, hbr, herr]

/-- An erroring `writeOnlyLoop` run errs on the push at some index `M`: the
first `M` pushes alone succeed, and the `M + 1`-st returns the very error
and state of the whole run. -/
lemma writeOnlyLoop_error_stepwise (ws : List ℕ) :
    ∀ (st : SpiState) (e : Error) (st2 : SpiState),
      writeOnlyLoop st ws = some (.error e, st2) →
      ∃ M, M < ws.length ∧
        (∃ stm, writeOnlyLoop st (ws.take M) = some (.ok (), stm)) ∧
        writeOnlyLoop st (ws.take (M + 1)) = some (.error e, st2) := by
  induction ws with
  | nil => intro st e st2 h; simp [writeOnlyLoop] at h
  | cons w ws ih =>
    intro st e st2 h
    rw [writeOnlyLoop] at h
    rcases hbw : blockWrite st w with _ | ⟨e1 | u1, st1⟩ <;> rw [hbw] at h
    · simp at h
    · simp only [Option.some.injEq, Prod.mk.injEq, Except.error.injEq] at h
      obtain ⟨rfl, rfl⟩ := h
      exact ⟨0, by simp, ⟨st, by simp [writeOnlyLoop]⟩,
        by simp [writeOnlyLoop, hbw]⟩
    · dsimp only at h
      obtain ⟨M, hM, ⟨stm, hok⟩, herr⟩ := ih st1 e st2 h
      refine ⟨M + 1, by simpa using hM, ⟨stm, ?_⟩, ?_⟩
      · simpa [writeOnlyLoop, hbw] using hok
      · simpa [writeOnlyLoop, hbw] using herr

/-- An erroring `captureLoop` run errs on the pop at some index `M`: the
first `M` pops alone succeed with exactly the first `M` entries of the final
buffer, entries from `M` on are the original ones, and the `M + 1`-st pop
returns the very error and state of the whole run. -/
lemma captureLoop_error_stepwise (ws : List ℕ) :
    ∀ (st : SpiState) (e : Error) (out : List ℕ) (st2 : SpiState),
      captureLoop st ws = some (.error e, out, st2) →
      ∃ M, M < ws.length ∧ out.length = ws.length ∧ out.drop M = ws.drop M ∧
        (∃ stm, captureLoop st (ws.take M) = some (.ok (), out.take M, stm)) ∧
        captureLoop st (ws.take (M + 1))
            = some (.error e, out.take (M + 1), st2) := by
  induction ws with
  | nil => intro st e out st2 h; simp [captureLoop] at h
  | cons w ws ih =>
    intro st e out st2 h
    rw [captureLoop] at h
    rcases hbr : blockRead st with _ | ⟨e1 | b, st1⟩ <;> rw [hbr] at h
    · simp at h
    · simp only [Option.some.injEq, Prod.mk.injEq, Except.error.injEq] at h
      obtain ⟨rfl, h2, rfl⟩ := h
      subst h2
      exact ⟨0, by simp, rfl, rfl, ⟨st, by simp [captureLoop]⟩,
        by simp [captureLoop, hbr]⟩
    · dsimp only at h
      rcases hrec : captureLoop st1 ws with _ | ⟨r3, ws2, st3⟩ <;> rw [hrec] at h <;>
        dsimp only at h
      · exact absurd h (by simp)
      · simp only [Option.some.injEq, Prod.mk.injEq] at h
        obtain ⟨hr, h2, rfl⟩ := h
        subst h2
        subst hr
        obtain ⟨M, hM, hlen, hdrop, ⟨stm, hok⟩, herr⟩ := ih st1 e ws2 st3 hrec
        refine ⟨M + 1, by simpa using hM, by simp [hlen], by simpa using hdrop,
          ⟨stm, ?_⟩, ?_⟩
        · simp [captureLoop, hbr, hok]
        · simp [captureLoop, hbr, herr]

/-- Splicing a dropped suffix back after a dropped take recovers the drop. -/
lemma take_drop_splice (rd : List ℕ) (wl N : ℕ) (hN : N ≤ wl) :
    (rd.take wl).drop N ++ rd.drop wl = rd.drop N := by
  rw [List.drop_take]
  have h1 : rd.drop wl = (rd.drop N).drop (wl - N) := by
    rw [List.drop_drop]
    congr 1
    omega
  rw [h1, List.take_append_drop]

/-- An erroring `spiTransfer` run errs on the byte-step at some index `N`
of the combined run (`N` below the total step count `max` of the two buffer
lengths): running the call on both buffers truncated to `N` alone succeeds
and produces exactly the first `N` entries of the final read buffer,
truncating to `N + 1` returns the very error and final state of the whole
call, and the read-buffer entries from the fault point on are the original
ones. -/
lemma spiTransfer_error_stepwise (st : SpiState) (rd wr : List ℕ) (e : Error)
    (out : List ℕ) (st2 : SpiState)
    (h : spiTransfer st rd wr = some (.error e, out, st2)) :
    ∃ N, N < max rd.length wr.length ∧ out.length = rd.length ∧
      out.drop (min N rd.length) = rd.drop (min N rd.length) ∧
      (∃ stm, spiTransfer st (rd.take N) (wr.take N)
          = some (.ok (), out.take N, stm)) ∧
      spiTransfer st (rd.take (N + 1)) (wr.take (N + 1))
          = some (.error e, out.take (N + 1), st2) := by
  rw [spiTransfer] at h
  by_cases h1 : rd.length = wr.length
  · -- equal lengths: the whole call is the paired loop
    rw [if_pos h1] at h
    obtain ⟨N, hN1, hN2, hlen, hdrop, ⟨stm, hok⟩, herr⟩ :=
      pairedLoop_error_stepwise rd wr st e out st2 h
    refine ⟨N, by omega, hlen, ?_, ⟨stm, ?_⟩, ?_⟩
    · rw [Nat.min_eq_left (by omega)]
      exact hdrop
    · rw [spiTransfer, if_pos (by simp only [List.length_take]; omega)]
      exact hok
    · rw [spiTransfer, if_pos (by simp only [List.length_take]; omega)]
      exact herr
  · rw [if_neg h1] at h
    by_cases h2 : rd.length < wr.length
    · -- read buffer shorter: paired prefix, then write-only suffix
      rw [if_pos h2] at h
      rcases hp : pairedLoop st rd (wr.take rd.length) with _ | ⟨ep | up, rd2, stp⟩ <;>
        rw [hp] at h <;> dsimp only at h
      · exact absurd h (by simp)
      · -- fault inside the paired prefix
        simp only [Option.some.injEq, Prod.mk.injEq, Except.error.injEq] at h
        obtain ⟨rfl, h2o, rfl⟩ := h
        subst h2o
        obtain ⟨N, hN1, hN2, hlen, hdrop, ⟨stm, hok⟩, herr⟩ :=
          pairedLoop_error_stepwise rd (wr.take rd.length) st _ rd2 stp hp
        refine ⟨N, by omega, hlen, ?_, ⟨stm, ?_⟩, ?_⟩
        · rw [Nat.min_eq_left (by omega)]
          exact hdrop
        · rw [spiTransfer, if_pos (by simp only [List.length_take]; omega)]
          have htt : (wr.take rd.length).take N = wr.take N := by
            rw [List.take_take, Nat.min_eq_left (by omega)]
          rw [htt] at hok
          exact hok
        · rw [spiTransfer, if_pos (by simp only [List.length_take]; omega)]
          have htt : (wr.take rd.length).take (N + 1) = wr.take (N + 1) := by
            rw [List.take_take, Nat.min_eq_left (by omega)]
          rw [htt] at herr
          exact herr
      · -- fault inside the write-only suffix
        rcases hw : writeOnlyLoop stp (wr.drop rd.length) with _ | ⟨res, st3⟩ <;>
          rw [hw] at h <;> dsimp only at h
        · exact absurd h (by simp)
        · simp only [Option.some.injEq, Prod.mk.injEq] at h
          obtain ⟨hres, h2o, rfl⟩ := h
          subst h2o
          subst hres
          have hlen2 : rd2.length = rd.length :=
            pairedLoop_length rd _ st _ rd2 stp hp
          obtain ⟨M, hM, ⟨stm, hok⟩, herr⟩ :=
            writeOnlyLoop_error_stepwise (wr.drop rd.length) stp e st3 hw
          have hM' : M < wr.length - rd.length := by
            have hMl := hM
            rwa [List.length_drop] at hMl
          refine ⟨rd.length + M, by omega, hlen2, ?_, ?_, ?_⟩
          · rw [Nat.min_eq_right (by omega)]
            have ea : rd2.drop rd.length = ([] : List ℕ) := by
              rw [← hlen2]
              exact List.drop_length rd2
            rw [ea, List.drop_length]
          · rcases Nat.eq_zero_or_pos M with hM0 | hM0
            · subst hM0
              refine ⟨stp, ?_⟩
              rw [Nat.add_zero, List.take_length]
              have eb : rd2.take rd.length = rd2 := by
                rw [← hlen2]
                exact List.take_length rd2
              rw [eb, spiTransfer, if_pos (by simp only [List.length_take]; omega)]
              exact hp
            · refine ⟨stm, ?_⟩
              rw [List.take_of_length_le (by omega : rd.length ≤ rd.length + M)]
              have eb : rd2.take (rd.length + M) = rd2 :=
                List.take_of_length_le (by omega)
              rw [eb, spiTransfer]
              rw [if_neg (by simp only [List.length_take]; omega)]
              rw [if_pos (by simp only [List.length_take]; omega)]
              have htt : (wr.take (rd.length + M)).take rd.length
                  = wr.take rd.length := by
                rw [List.take_take, Nat.min_eq_left (by omega)]
              rw [htt, hp]
              dsimp only
              have hdt : (wr.take (rd.length + M)).drop rd.length
                  = (wr.drop rd.length).take M := by
                rw [List.drop_take]
                congr 1
                omega
              rw [hdt, hok]
          · rw [List.take_of_length_le (by omega : rd.length ≤ rd.length + M + 1)]
            have eb : rd2.take (rd.length + M + 1) = rd2 :=
              List.take_of_length_le (by omega)
            rw [eb, spiTransfer]
            rw [if_neg (by simp only [List.length_take]; omega)]
            rw [if_pos (by simp only [List.length_take]; omega)]
            have htt : (wr.take (rd.length + M + 1)).take rd.length
                = wr.take rd.length := by
              rw [List.take_take, Nat.min_eq_left (by omega)]
            rw [htt, hp]
            dsimp only
            have hdt : (wr.take (rd.length + M + 1)).drop rd.length
                = (wr.drop rd.length).take (M + 1) := by
              rw [List.drop_take]
              congr 1
              omega
            rw [hdt, herr]
    · -- write buffer shorter: paired prefix, then capture-only suffix
      rw [if_neg h2] at h
      have hwl : wr.length < rd.length := by omega
      rcases hp : pairedLoop st (rd.take wr.length) wr with _ | ⟨ep | up, pref, stp⟩ <;>
        rw [hp] at h <;> dsimp only at h
      · exact absurd h (by simp)
      · -- fault inside the paired prefix
        simp only [Option.some.injEq, Prod.mk.injEq, Except.error.injEq] at h
        obtain ⟨rfl, h2o, rfl⟩ := h
        subst h2o
        obtain ⟨N, hN1, hN2, hplen, hpdrop, ⟨stm, hok⟩, herr⟩ :=
          pairedLoop_error_stepwise (rd.take wr.length) wr st _ pref stp hp
        have hplen' : pref.length = wr.length := by
          rw [hplen, List.length_take, Nat.min_eq_left (by omega)]
        have hN1' : N < wr.length := by
          have hNl := hN1
          rwa [List.length_take, Nat.min_eq_left (by omega)] at hNl
        refine ⟨N, by omega, ?_, ?_, ⟨stm, ?_⟩, ?_⟩
        · rw [List.length_append, hplen', List.length_drop]
          omega
        · rw [Nat.min_eq_left (by omega)]
          rw [List.drop_append_of_le_length (by omega), hpdrop]
          exact take_drop_splice rd wr.length N (by omega)
        · rw [List.take_append_of_le_length (by omega)]
          rw [spiTransfer, if_pos (by simp only [List.length_take]; omega)]
          have htt : (rd.take wr.length).take N = rd.take N := by
            rw [List.take_take, Nat.min_eq_left (by omega)]
          rw [htt] at hok
          exact hok
        · rw [List.take_append_of_le_length (by omega)]
          rw [spiTransfer, if_pos (by simp only [List.length_take]; omega)]
          have htt : (rd.take wr.length).take (N + 1) = rd.take (N + 1) := by
            rw [List.take_take, Nat.min_eq_left (by omega)]
          rw [htt] at herr
          exact herr
      · -- fault inside the capture-only suffix
        rcases hc : captureLoop stp (rd.drop wr.length) with _ | ⟨res, suf2, st3⟩ <;>
          rw [hc] at h <;> dsimp only at h
        · exact absurd h (by simp)
        · simp only [Option.some.injEq, Prod.mk.injEq] at h
          obtain ⟨hres, h2o, rfl⟩ := h
          subst h2o
          subst hres
          have hplen' : pref.length = wr.length := by
            have hl := pairedLoop_length (rd.take wr.length) wr st _ pref stp hp
            rw [hl, List.length_take, Nat.min_eq_left (by omega)]
          obtain ⟨M, hM, hslen, hsdrop, ⟨stm, hok⟩, herr⟩ :=
            captureLoop_error_stepwise (rd.drop wr.length) stp e suf2 st3 hc
          have hM' : M < rd.length - wr.length := by
            have hMl := hM
            rwa [List.length_drop] at hMl
          refine ⟨wr.length + M, by omega, ?_, ?_, ?_, ?_⟩
          · rw [List.length_append, hplen', hslen, List.length_drop]
            omega
          · rw [Nat.min_eq_left (by omega)]
            have hL : (pref ++ suf2).drop (wr.length + M) = suf2.drop M := by
              rw [← hplen']
              exact List.drop_append M
            have hR : rd.drop (wr.length + M) = (rd.drop wr.length).drop M := by
              rw [List.drop_drop]
            rw [hL, hR]
            exact hsdrop
          · rcases Nat.eq_zero_or_pos M with hM0 | hM0
            · subst hM0
              refine ⟨stp, ?_⟩
              rw [Nat.add_zero]
              have h1t : (pref ++ suf2).take wr.length = pref := by
                rw [← hplen']
                rw [List.take_append_of_le_length (Nat.le_refl _)]
                exact List.take_length pref
              rw [h1t, List.take_length]
              rw [spiTransfer, if_pos (by simp only [List.length_take]; omega)]
              exact hp
            · refine ⟨stm, ?_⟩
              have h1t : (pref ++ suf2).take (wr.length + M)
                  = pref ++ suf2.take M := by
                rw [← hplen']
                exact List.take_append M
              rw [h1t, List.take_of_length_le (by omega : wr.length ≤ wr.length + M)]
              rw [spiTransfer]
              rw [if_neg (by simp only [List.length_take]; omega)]
              rw [if_neg (by simp only [List.length_take]; omega)]
              have htt : (rd.take (wr.length + M)).take wr.length
                  = rd.take wr.length := by
                rw [List.take_take, Nat.min_eq_left (by omega)]
              rw [htt, hp]
              dsimp only
              have hdt : (rd.take (wr.length + M)).drop wr.length
                  = (rd.drop wr.length).take M := by
                rw [List.drop_take]
                congr 1
                omega
              rw [hdt, hok]
          · have h1t : (pref ++ suf2).take (wr.length + M + 1)
                = pref ++ suf2.take (M + 1) := by
              rw [← hplen', Nat.add_assoc]
              exact List.take_append (M + 1)
            rw [h1t, List.take_of_length_le (by omega : wr.length ≤ wr.length + M + 1)]
            rw [spiTransfer]
            rw [if_neg (by simp only [List.length_take]; omega)]
            rw [if_neg (by simp only [List.length_take]; omega)]
            have htt : (rd.take (wr.length + M + 1)).take wr.length
                = rd.take wr.length := by
              rw [List.take_take, Nat.min_eq_left (by omega)]
            rw [htt, hp]
            dsimp only
            have hdt : (rd.take (wr.length + M + 1)).drop wr.length
                = (rd.drop wr.length).take (M + 1) := by
              rw [List.drop_take]
              congr 1
              omega
            rw [hdt, herr]

/-- Claim C8: per poll, the transmit push fails terminally exactly when a
transmit flag reads set (overflow winning when both are set), otherwise
reports the retryable not-ready condition exactly while the transmit FIFO
has no space; the receive pop fails analogously on the receive flags,
otherwise retries exactly while the receive occupancy is zero; a successful
pop returns the data register masked to its low 8 bits; and a `WouldBlock`
poll is consumed by the blocking wrappers as an internal retry, never
surfacing to the byte-level loops. -/
theorem fullduplex_poll_semantics (s : FifoStatus) (data b : ℕ)
    (rest : List FifoStatus) (log : List ℕ) :
    (FullDuplex_write s data = .err .TxOverflow ↔ s.tx_fifo_overflow = true) ∧
    (FullDuplex_write s data = .err .TxUnderflow ↔
      (s.tx_fifo_underflow = true ∧ s.tx_fifo_overflow = false)) ∧
    (FullDuplex_write s data = .wouldBlock ↔
      (s.tx_fifo_overflow = false ∧ s.tx_fifo_underflow = false ∧
        s.tx_fifo_cnt = 0)) ∧
    (FullDuplex_read s = .err .RxOverflow ↔ s.rx_fifo_overflow = true) ∧
    (FullDuplex_read s = .err .RxUnderflow ↔
      (s.rx_fifo_underflow = true ∧ s.rx_fifo_overflow = false)) ∧
    (FullDuplex_read s = .wouldBlock ↔
      (s.rx_fifo_overflow = false ∧ s.rx_fifo_underflow = false ∧
        s.rx_fifo_cnt = 0)) ∧
    (FullDuplex_read s = .ok b ↔
      (s.rx_fifo_overflow = false ∧ s.rx_fifo_underflow = false ∧
        s.rx_fifo_cnt ≠ 0 ∧ b = s.spi_fifo_rdata % 256)) ∧
    (FullDuplex_write s data = .wouldBlock →
      blockWrite ⟨s :: rest, log⟩ data = blockWrite ⟨rest, log⟩ data) ∧
    (FullDuplex_read s = .wouldBlock →
      blockRead ⟨s :: rest, log⟩ = blockRead ⟨rest, log⟩) := by
  obtain ⟨txo, txu, txc, rxo, rxu, rxc, rd⟩ := s
  cases txo <;> cases txu <;> cases rxo <;> cases rxu <;>
    by_cases htc : txc = 0 <;> by_cases hrc : rxc = 0 <;>
    simp [FullDuplex_write, FullDuplex_read, blockWrite, blockRead,
      blockWriteLoop, blockReadLoop, htc, hrc] <;>
    exact eq_comm

/-- Witness for C8: on a snapshot with all flags clear and both occupancy
counts zero, write and read polls both report not-ready and the blocking
wrappers retry on the rest of the trace. -/
theorem fullduplex_poll_semantics_witness :
    blockWrite ⟨[⟨false, false, 0, false, false, 0, 0⟩], []⟩ 5
        = blockWrite ⟨[], []⟩ 5 ∧
    blockRead ⟨[⟨false, false, 0, false, false, 0, 0⟩], []⟩
        = blockRead ⟨[], []⟩ :=
  ⟨(fullduplex_poll_semantics ⟨false, false, 0, false, false, 0, 0⟩ 5 0 [] []).2.2.2.2.2.2.2.1
      (by rfl),
   (fullduplex_poll_semantics ⟨false, false, 0, false, false, 0, 0⟩ 5 0 [] []).2.2.2.2.2.2.2.2
      (by rfl)⟩

/-- Claim C10: `SpiBus::write` pops the receive FIFO on every byte-step with
the same receive-flag fault checks as a read, so receive-side errors can
surface from `write`; indeed all four error kinds are reachable. -/
theorem write_surfaces_rx_errors :
    spiWrite ⟨[⟨false, false, 1, false, false, 1, 100⟩,
               ⟨false, false, 1, true, false, 1, 0⟩], []⟩ [5]
        = some (.error .RxOverflow, ⟨[], [5]⟩) ∧
    spiWrite ⟨[⟨false, false, 1, false, false, 1, 100⟩,
               ⟨false, false, 1, false, true, 1, 0⟩], []⟩ [5]
        = some (.error .RxUnderflow, ⟨[], [5]⟩) ∧
    spiWrite ⟨[⟨true, false, 1, false, false, 1, 0⟩], []⟩ [5]
        = some (.error .TxOverflow, ⟨[], []⟩) ∧
    spiWrite ⟨[⟨false, true, 1, false, false, 1, 0⟩], []⟩ [5]
        = some (.error .TxUnderflow, ⟨[], []⟩) :=
  ⟨rfl, rfl, rfl, rfl⟩

/-- Claim C1 is contradicted by the code: in `SpiBus::transfer` with
`len(read) = 5 > len(write) = 3` on always-ready hardware, the two suffix
steps only pop the receive FIFO and push nothing — the transmit log ends as
exactly the three data bytes `[17, 34, 51]`, not the five pushes (three data
plus two `0x00` fillers) the claim requires.  The captures themselves do
land in `read[3]` and `read[4]`. -/
theorem transfer_read_suffix_pushes_no_filler :
    spiTransfer
        ⟨[⟨false, false, 1, false, false, 1, 100⟩,
          ⟨false, false, 1, false, false, 1, 101⟩,
          ⟨false, false, 1, false, false, 1, 102⟩,
          ⟨false, false, 1, false, false, 1, 103⟩,
          ⟨false, false, 1, false, false, 1, 104⟩,
          ⟨false, false, 1, false, false, 1, 105⟩,
          ⟨false, false, 1, false, false, 1, 106⟩,
          ⟨false, false, 1, false, false, 1, 107⟩], []⟩
        [0, 0, 0, 0, 0] [17, 34, 51]
      = some (.ok (), [101, 103, 105, 106, 107], ⟨[], [17, 34, 51]⟩) ∧
    ([17, 34, 51] : List ℕ) ≠ [17, 34, 51, 0, 0] :=
  ⟨rfl, by simp⟩

/-- Claim C6: for every start value `s` and elapsed amount `d` (both `u64`
values), reading the counter at `(s + d) mod 2^64` and calling
`cycles_since` recovers exactly `d` — the wrapping subtraction makes the
elapsed count correct across a 64-bit counter rollover. -/
theorem cycles_since_wraparound (s d : ℕ) (hs : s < U64) (hd : d < U64) :
    cycles_since ((s + d) % U64) s = d := by
  unfold cycles_since wsub64
  rcases Nat.lt_or_ge (s + d) U64 with hlt | hge
  · rw [Nat.mod_eq_of_lt hlt, Nat.mod_eq_of_lt hlt, Nat.mod_eq_of_lt hs]
    have hrw : s + d + (U64 - s) = U64 + d := by omega
    rw [hrw, Nat.add_mod_left, Nat.mod_eq_of_lt hd]
  · have hlt2 : s + d - U64 < U64 := by omega
    have hmod : (s + d) % U64 = s + d - U64 := by
      rw [Nat.mod_eq_sub_mod hge, Nat.mod_eq_of_lt hlt2]
    rw [hmod, Nat.mod_eq_of_lt hlt2, Nat.mod_eq_of_lt hs]
    have hrw3 : s + d - U64 + (U64 - s) = d := by omega
    rw [hrw3, Nat.mod_eq_of_lt hd]

/-- Witness for C6 at a counter value 5 below the 64-bit boundary with 10
cycles elapsed across the rollover. -/
theorem cycles_since_wraparound_witness :
    cycles_since ((18446744073709551611 + 10) % U64) 18446744073709551611 = 10 :=
  cycles_since_wraparound 18446744073709551611 10
    (by norm_num [U64]) (by norm_num [U64])

/-- Claim C5: `delay_cycles(n)` returns only once the elapsed count observed
on the cycle counter is strictly greater than `n`; consequently `delay_ms(t)`
(for every `t`, in particular 0, 1 and 1000) returns only after strictly more
than `t * F / 1000` cycles — at least `t` milliseconds' worth — have elapsed
since the start captured at entry. -/
theorem delay_ms_elapsed_lower_bound :
    (∀ (cycle_count : ℕ) (mt : List ℕ) (e : ℕ) (rest : List ℕ),
        delay_cycles cycle_count mt = some (e, rest) → cycle_count < e) ∧
    (∀ (ms core_frequency : ℕ) (mt : List ℕ) (e : ℕ) (rest : List ℕ),
        ms < U32 → core_frequency < U32 →
        delay_ms_run ms core_frequency mt = some (e, rest) →
        ms * core_frequency / 1000 < e) := by
  constructor
  · intro cycle_count mt e rest h
    cases mt with
    | nil => simp [delay_cycles] at h
    | cons start tl =>
      rw [delay_cycles] at h
      exact spinUntilElapsed_gt start cycle_count tl e rest h
  · intro ms core_frequency mt e rest hms hf h
    have h1 : delay_ms_cycles ms core_frequency < e := by
      cases mt with
      | nil => simp [delay_ms_run, delay_cycles] at h
      | cons start tl =>
        rw [delay_ms_run, delay_cycles] at h
        exact spinUntilElapsed_gt start _ tl e rest h
    rw [delay_ms_cycles, Nat.mod_eq_of_lt hms, Nat.mod_eq_of_lt hf] at h1
    exact h1

/-- Witness for C5: a 1 ms delay at 1 MHz (target 1000 cycles) on a counter
trace starting at 0 and next reading 5000 exits with elapsed 5000 > 1000. -/
theorem delay_ms_elapsed_lower_bound_witness :
    1 * 1000000 / 1000 < 5000 ∧
    delay_ms_run 1 1000000 [0, 5000] = some (5000, []) :=
  ⟨delay_ms_elapsed_lower_bound.2 1 1000000 [0, 5000] 5000 []
      (by norm_num [U32]) (by norm_num [U32]) (by decide),
   by decide⟩

/-- Claim C2 is contradicted by the code: `delay_ns` in src/delay.rs divides
by `1_000_000_0000` (ten billion — an extra zero), not `1_000_000_000`, so a
1000 ns request at a 1 GHz core frequency waits 100 cycles where the claim
requires 1000.  The microsecond and millisecond divisors match the claim. -/
theorem delay_ns_divisor_mismatch :
    delay_ns_cycles 1000 1000000000 = 100 ∧
    1000 * 1000000000 / 1000000000 = 1000 ∧
    delay_us_cycles 1000 1000000000 = 1000000 ∧
    delay_ms_cycles 1000 1000000000 = 1000000000 := by
  refine ⟨?_, by norm_num, ?_, ?_⟩ <;> decide

/-- Appending operations after an erroring prefix changes nothing: the same
error, state and trace come back, and the appended operations are returned
untouched. -/
lemma transaction_error_append (F : ℕ) (ops : List Operation) :
    ∀ (st : SpiState) (mt : List ℕ) (e : Error) (ops2 : List Operation)
      (st2 : SpiState) (mt2 : List ℕ) (post : List Operation),
      transaction F st mt ops = some (.error e, ops2, st2, mt2) →
      transaction F st mt (ops ++ post) = some (.error e, ops2 ++ post, st2, mt2) := by
  induction ops with
  | nil => intro st mt e ops2 st2 mt2 post h; simp [transaction] at h
  | cons op ops ih =>
    intro st mt e ops2 st2 mt2 post h
    rw [transaction] at h
    rw [List.cons_append, transaction]
    rcases hro : runOp st mt F op with _ | ⟨r1, op2, st3, mt3⟩ <;> rw [hro] at h
    · exact absurd h (by simp)
    · rcases r1 with e1 | u1 <;> dsimp only at h ⊢
      · simp only [Option.some.injEq, Prod.mk.injEq, Except.error.injEq] at h
        obtain ⟨rfl, h2, rfl, rfl⟩ := h
        subst h2
        simp
      · rcases htr : transaction F st3 mt3 ops with _ | ⟨r2, ops3, st4, mt4⟩ <;>
          rw [htr] at h <;> dsimp only at h
        · exact absurd h (by simp)
        · simp only [Option.some.injEq, Prod.mk.injEq] at h
          obtain ⟨hr, h2, rfl, rfl⟩ := h
          subst h2
          subst hr
          rw [ih st3 mt3 e ops3 st4 mt4 post htr]
          simp
/-- Appending operations after a succeeding prefix composes: the prefix
executes first, then the appended operations from the prefix's final
state. -/
lemma transaction_ok_append (F : ℕ) (ops : List Operation) :
    ∀ (st : SpiState) (mt : List ℕ) (ops2 : List Operation) (st2 : SpiState)
      (mt2 : List ℕ) (post : List Operation) (r : Except Error Unit)
      (ops3 : List Operation) (st3 : SpiState) (mt3 : List ℕ),
      transaction F st mt ops = some (.ok (), ops2, st2, mt2) →
      transaction F st2 mt2 post = some (r, ops3, st3, mt3) →
      transaction F st mt (ops ++ post) = some (r, ops2 ++ ops3, st3, mt3) := by
  induction ops with
  | nil =>
    intro st mt ops2 st2 mt2 post r ops3 st3 mt3 h hp
    simp only [transaction, Option.some.injEq, Prod.mk.injEq, true_and] at h
    obtain ⟨rfl, rfl, rfl⟩ := h
    simpa using hp
  | cons op ops ih =>
    intro st mt ops2 st2 mt2 post r ops3 st3 mt3 h hp
    rw [transaction] at h
    rw [List.cons_append, transaction]
    rcases hro : runOp st mt F op with _ | ⟨r1, op2, st4, mt4⟩ <;> rw [hro] at h
    · exact absurd h (by simp)
    · rcases r1 with e1 | u1 <;> dsimp only at h ⊢
      · exact absurd h (by simp)
      · rcases htr : transaction F st4 mt4 ops with _ | ⟨r2, ops4, st5, mt5⟩ <;>
          rw [htr] at h <;> dsimp only at h
        · exact absurd h (by simp)
        · simp only [Option.some.injEq, Prod.mk.injEq] at h
          obtain ⟨hr, h2, rfl, rfl⟩ := h
          subst h2
          subst hr
          rw [ih st4 mt4 ops4 st5 mt5 post r ops3 st3 mt3 htr hp]
          simp

/-- Claim C9: a multi-byte call that errs does so on the byte-step at some
index `N`: for `read` and `transfer_in_place`, the first `N` steps alone
succeed and produce exactly the first `N` entries of the final buffer, the
entries from `N` on are the original ones, and the `N + 1`-st step returns
the very error and state of the whole call (no rollback, no further steps);
for `write` the same step characterisation holds; and for `transfer`, with
`N` below the total step count `max(len(read), len(write))`, the call on
both buffers truncated to `N` alone succeeds with exactly the first `N`
entries of the final destination buffer, truncating to `N + 1` returns the
very error and final state of the whole call, and the destination entries
from the fault point on are the original ones. -/
theorem multibyte_error_no_rollback :
    (∀ (ws : List ℕ) (st : SpiState) (e : Error) (out : List ℕ) (st2 : SpiState),
        spiRead st ws = some (.error e, out, st2) →
        ∃ N, N < ws.length ∧ out.length = ws.length ∧ out.drop N = ws.drop N ∧
          (∃ stm, spiRead st (ws.take N) = some (.ok (), out.take N, stm)) ∧
          spiRead st (ws.take (N + 1)) = some (.error e, out.take (N + 1), st2)) ∧
    (∀ (ws : List ℕ) (st : SpiState) (e : Error) (out : List ℕ) (st2 : SpiState),
        spiTransferInPlace st ws = some (.error e, out, st2) →
        ∃ N, N < ws.length ∧ out.length = ws.length ∧ out.drop N = ws.drop N ∧
          (∃ stm, spiTransferInPlace st (ws.take N) = some (.ok (), out.take N, stm)) ∧
          spiTransferInPlace st (ws.take (N + 1))
            = some (.error e, out.take (N + 1), st2)) ∧
    (∀ (ws : List ℕ) (st : SpiState) (e : Error) (st2 : SpiState),
        spiWrite st ws = some (.error e, st2) →
        ∃ N, N < ws.length ∧
          (∃ stm, spiWrite st (ws.take N) = some (.ok (), stm)) ∧
          spiWrite st (ws.take (N + 1)) = some (.error e, st2)) ∧
    (∀ (st : SpiState) (rd wr : List ℕ) (e : Error) (out : List ℕ)
        (st2 : SpiState),
        spiTransfer st rd wr = some (.error e, out, st2) →
        ∃ N, N < max rd.length wr.length ∧ out.length = rd.length ∧
          out.drop (min N rd.length) = rd.drop (min N rd.length) ∧
          (∃ stm, spiTransfer st (rd.take N) (wr.take N)
              = some (.ok (), out.take N, stm)) ∧
          spiTransfer st (rd.take (N + 1)) (wr.take (N + 1))
              = some (.error e, out.take (N + 1), st2)) :=
  ⟨spiRead_error_stepwise, spiTransferInPlace_error_stepwise,
   spiWrite_error_stepwise, spiTransfer_error_stepwise⟩

/-- Witness for C9: on a trace whose fourth poll reports a receive
overflow, each of the four primitives on a two-byte buffer errs at step 1,
keeping the captured byte 101 at index 0 and the original entry at
index 1. -/
theorem multibyte_error_no_rollback_witness :
    (∃ N, N < ([7, 8] : List ℕ).length ∧
      ([101, 8] : List ℕ).length = ([7, 8] : List ℕ).length ∧
      ([101, 8] : List ℕ).drop N = ([7, 8] : List ℕ).drop N ∧
      (∃ stm,
        spiRead
          ⟨[⟨false, false, 1, false, false, 1, 100⟩,
            ⟨false, false, 1, false, false, 1, 101⟩,
            ⟨false, false, 1, false, false, 1, 102⟩,
            ⟨false, false, 1, true, false, 1, 0⟩], []⟩ (([7, 8] : List ℕ).take N)
          = some (.ok (), ([101, 8] : List ℕ).take N, stm)) ∧
      spiRead
        ⟨[⟨false, false, 1, false, false, 1, 100⟩,
          ⟨false, false, 1, false, false, 1, 101⟩,
          ⟨false, false, 1, false, false, 1, 102⟩,
          ⟨false, false, 1, true, false, 1, 0⟩], []⟩ (([7, 8] : List ℕ).take (N + 1))
        = some (.error .RxOverflow, ([101, 8] : List ℕ).take (N + 1), ⟨[], [0, 0]⟩)) ∧
    (∃ N, N < ([7, 8] : List ℕ).length ∧
      ([101, 8] : List ℕ).length = ([7, 8] : List ℕ).length ∧
      ([101, 8] : List ℕ).drop N = ([7, 8] : List ℕ).drop N ∧
      (∃ stm,
        spiTransferInPlace
          ⟨[⟨false, false, 1, false, false, 1, 100⟩,
            ⟨false, false, 1, false, false, 1, 101⟩,
            ⟨false, false, 1, false, false, 1, 102⟩,
            ⟨false, false, 1, true, false, 1, 0⟩], []⟩ (([7, 8] : List ℕ).take N)
          = some (.ok (), ([101, 8] : List ℕ).take N, stm)) ∧
      spiTransferInPlace
        ⟨[⟨false, false, 1, false, false, 1, 100⟩,
          ⟨false, false, 1, false, false, 1, 101⟩,
          ⟨false, false, 1, false, false, 1, 102⟩,
          ⟨false, false, 1, true, false, 1, 0⟩], []⟩ (([7, 8] : List ℕ).take (N + 1))
        = some (.error .RxOverflow, ([101, 8] : List ℕ).take (N + 1), ⟨[], [7, 8]⟩)) ∧
    (∃ N, N < ([7, 8] : List ℕ).length ∧
      (∃ stm,
        spiWrite
          ⟨[⟨false, false, 1, false, false, 1, 100⟩,
            ⟨false, false, 1, false, false, 1, 101⟩,
            ⟨false, false, 1, false, false, 1, 102⟩,
            ⟨false, false, 1, true, false, 1, 0⟩], []⟩ (([7, 8] : List ℕ).take N)
          = some (.ok (), stm)) ∧
      spiWrite
        ⟨[⟨false, false, 1, false, false, 1, 100⟩,
          ⟨false, false, 1, false, false, 1, 101⟩,
          ⟨false, false, 1, false, false, 1, 102⟩,
          ⟨false, false, 1, true, false, 1, 0⟩], []⟩ (([7, 8] : List ℕ).take (N + 1))
        = some (.error .RxOverflow, ⟨[], [7, 8]⟩)) ∧
    (∃ N, N < max ([7, 8] : List ℕ).length ([9, 10] : List ℕ).length ∧
      ([101, 8] : List ℕ).length = ([7, 8] : List ℕ).length ∧
      ([101, 8] : List ℕ).drop (min N ([7, 8] : List ℕ).length)
          = ([7, 8] : List ℕ).drop (min N ([7, 8] : List ℕ).length) ∧
      (∃ stm,
        spiTransfer
          ⟨[⟨false, false, 1, false, false, 1, 100⟩,
            ⟨false, false, 1, false, false, 1, 101⟩,
            ⟨false, false, 1, false, false, 1, 102⟩,
            ⟨false, false, 1, true, false, 1, 0⟩], []⟩
          (([7, 8] : List ℕ).take N) (([9, 10] : List ℕ).take N)
          = some (.ok (), ([101, 8] : List ℕ).take N, stm)) ∧
      spiTransfer
        ⟨[⟨false, false, 1, false, false, 1, 100⟩,
          ⟨false, false, 1, false, false, 1, 101⟩,
          ⟨false, false, 1, false, false, 1, 102⟩,
          ⟨false, false, 1, true, false, 1, 0⟩], []⟩
        (([7, 8] : List ℕ).take (N + 1)) (([9, 10] : List ℕ).take (N + 1))
        = some (.error .RxOverflow, ([101, 8] : List ℕ).take (N + 1), ⟨[], [9, 10]⟩)) :=
  ⟨multibyte_error_no_rollback.1 [7, 8]
      ⟨[⟨false, false, 1, false, false, 1, 100⟩,
        ⟨false, false, 1, false, false, 1, 101⟩,
        ⟨false, false, 1, false, false, 1, 102⟩,
        ⟨false, false, 1, true, false, 1, 0⟩], []⟩ .RxOverflow [101, 8] ⟨[], [0, 0]⟩
      (by rfl),
   multibyte_error_no_rollback.2.1 [7, 8]
      ⟨[⟨false, false, 1, false, false, 1, 100⟩,
        ⟨false, false, 1, false, false, 1, 101⟩,
        ⟨false, false, 1, false, false, 1, 102⟩,
        ⟨false, false, 1, true, false, 1, 0⟩], []⟩ .RxOverflow [101, 8] ⟨[], [7, 8]⟩
      (by rfl),
   multibyte_error_no_rollback.2.2.1 [7, 8]
      ⟨[⟨false, false, 1, false, false, 1, 100⟩,
        ⟨false, false, 1, false, false, 1, 101⟩,
        ⟨false, false, 1, false, false, 1, 102⟩,
        ⟨false, false, 1, true, false, 1, 0⟩], []⟩ .RxOverflow ⟨[], [7, 8]⟩
      (by rfl),
   multibyte_error_no_rollback.2.2.2
      ⟨[⟨false, false, 1, false, false, 1, 100⟩,
        ⟨false, false, 1, false, false, 1, 101⟩,
        ⟨false, false, 1, false, false, 1, 102⟩,
        ⟨false, false, 1, true, false, 1, 0⟩], []⟩ [7, 8] [9, 10] .RxOverflow
      [101, 8] ⟨[], [9, 10]⟩ (by rfl)⟩

/-- Claim C7: `transaction` dispatches each operation kind to the
corresponding bus primitive (and forwards `DelayNs` to the embedded
cycle-counter delay), executes operations strictly in list order, stops at
the first error returning exactly that error with the remaining operations
unexecuted, and returns success when no operation errs (the empty tail
yields `Ok`). -/
theorem transaction_order_short_circuit (F : ℕ) :
    (∀ (st : SpiState) (mt : List ℕ) (buf : List ℕ),
        runOp st mt F (.read buf) =
          match spiRead st buf with
          | none => none
          | some (r, buf2, st2) => some (r, .read buf2, st2, mt)) ∧
    (∀ (st : SpiState) (mt : List ℕ) (buf : List ℕ),
        runOp st mt F (.write buf) =
          match spiWrite st buf with
          | none => none
          | some (r, st2) => some (r, .write buf, st2, mt)) ∧
    (∀ (st : SpiState) (mt : List ℕ) (rd wr : List ℕ),
        runOp st mt F (.transfer rd wr) =
          match spiTransfer st rd wr with
          | none => none
          | some (r, rd2, st2) => some (r, .transfer rd2 wr, st2, mt)) ∧
    (∀ (st : SpiState) (mt : List ℕ) (buf : List ℕ),
        runOp st mt F (.transferInPlace buf) =
          match spiTransferInPlace st buf with
          | none => none
          | some (r, buf2, st2) => some (r, .transferInPlace buf2, st2, mt)) ∧
    (∀ (st : SpiState) (mt : List ℕ) (ns : ℕ),
        runOp st mt F (.delayNs ns) =
          match delay_ns_run ns F mt with
          | none => none
          | some (_, mt2) => some (.ok (), .delayNs ns, st, mt2)) ∧
    (∀ (st : SpiState) (mt : List ℕ),
        transaction F st mt [] = some (.ok (), [], st, mt)) ∧
    (∀ (ops : List Operation) (st : SpiState) (mt : List ℕ) (e : Error)
        (ops2 : List Operation) (st2 : SpiState) (mt2 : List ℕ)
        (post : List Operation),
        transaction F st mt ops = some (.error e, ops2, st2, mt2) →
        transaction F st mt (ops ++ post)
          = some (.error e, ops2 ++ post, st2, mt2)) ∧
    (∀ (ops : List Operation) (st : SpiState) (mt : List ℕ)
        (ops2 : List Operation) (st2 : SpiState) (mt2 : List ℕ)
        (post : List Operation) (r : Except Error Unit) (ops3 : List Operation)
        (st3 : SpiState) (mt3 : List ℕ),
        transaction F st mt ops = some (.ok (), ops2, st2, mt2) →
        transaction F st2 mt2 post = some (r, ops3, st3, mt3) →
        transaction F st mt (ops ++ post) = some (r, ops2 ++ ops3, st3, mt3)) :=
  ⟨fun _ _ _ => rfl, fun _ _ _ => rfl, fun _ _ _ _ => rfl, fun _ _ _ => rfl,
   fun _ _ _ => rfl, fun _ _ => rfl,
   fun ops st mt e ops2 st2 mt2 post h =>
     transaction_error_append F ops st mt e ops2 st2 mt2 post h,
   fun ops st mt ops2 st2 mt2 post r ops3 st3 mt3 h hp =>
     transaction_ok_append F ops st mt ops2 st2 mt2 post r ops3 st3 mt3 h hp⟩

/-- Witness for C7 at `F = 1000`: a write failing with `TxOverflow` makes
the transaction return that error at once, with a subsequent read returned
unexecuted; and a succeeding write composes with a subsequent delay. -/
theorem transaction_order_short_circuit_witness :
    transaction 1000 ⟨[⟨true, false, 1, false, false, 1, 0⟩], []⟩ [0, 5]
        ([.write [5]] ++ [.read [0]])
      = some (.error .TxOverflow, [.write [5]] ++ [.read [0]], ⟨[], []⟩, [0, 5]) ∧
    transaction 1000
        ⟨[⟨false, false, 1, false, false, 1, 100⟩,
          ⟨false, false, 1, false, false, 1, 101⟩], []⟩ [0, 5]
        ([.write [5]] ++ [.delayNs 0])
      = some (.ok (), [.write [5]] ++ [.delayNs 0], ⟨[], [5]⟩, []) :=
  ⟨(transaction_order_short_circuit 1000).2.2.2.2.2.2.1 [.write [5]]
      ⟨[⟨true, false, 1, false, false, 1, 0⟩], []⟩ [0, 5] .TxOverflow
      [.write [5]] ⟨[], []⟩ [0, 5] [.read [0]] (by rfl),
   (transaction_order_short_circuit 1000).2.2.2.2.2.2.2 [.write [5]]
      ⟨[⟨false, false, 1, false, false, 1, 100⟩,
        ⟨false, false, 1, false, false, 1, 101⟩], []⟩ [0, 5]
      [.write [5]] ⟨[], [5]⟩ [0, 5] [.delayNs 0] (.ok ()) [.delayNs 0]
      ⟨[], [5]⟩ [] (by rfl) (by rfl)⟩

end BL702
